import Mathlib

/-!
Verification of the generation core of the mynted-bot repository.

The definitions below are a shallow embedding of the Python sources:
src/services/load_balancer.py (account pool), src/services/image_generator.py
(retry loop and batch dispatch) and src/services/delivery.py (ZipSplitter).
Machine time instants are modelled as natural-number seconds; byte strings as
lists of naturals.
-/

namespace Mynted

/-- Status of a single API account, mirroring the dataclass AccountStatus of
load_balancer.py.  Timestamps are natural-number seconds. -/
structure AccountStatus where
  api_key : String
  active_requests : Nat := 0
  total_requests : Nat := 0
  failures : Nat := 0
  last_failure : Nat := 0
  rate_limited_until : Nat := 0
  consecutive_failures : Nat := 0
deriving Repr, DecidableEq

/-- Score computed in LoadBalancer._get_best_account: lower is better. -/
def score (a : AccountStatus) : Nat :=
  a.active_requests * 10 + a.failures * 2 + a.consecutive_failures * 5

/-- An account passes the two skip tests of _get_best_account: it is not rate
limited (rate_limited_until ≤ now) and it is under the per-account cap. -/
def eligible (cap now : Nat) (a : AccountStatus) : Bool :=
  !(decide (a.rate_limited_until > now)) && decide (a.active_requests < cap)

/-- Linear scan of _get_best_account: walks the account list keeping the
best (index, score) pair seen so far; a later account replaces the current
best only with a strictly smaller score, so ties keep the earlier account. -/
def getBestAux (cap now : Nat) : List AccountStatus → Nat → Option (Nat × Nat) → Option (Nat × Nat)
  | [], _, best => best
  | a :: rest, i, best =>
    if eligible cap now a then
      match best with
      | none => getBestAux cap now rest (i + 1) (some (i, score a))
      | some (bi, bs) =>
        if score a < bs then getBestAux cap now rest (i + 1) (some (i, score a))
        else getBestAux cap now rest (i + 1) (some (bi, bs))
    else getBestAux cap now rest (i + 1) best

/-- Index of the account LoadBalancer._get_best_account would return, if any. -/
def getBest (cap now : Nat) (accounts : List AccountStatus) : Option Nat :=
  (getBestAux cap now accounts 0 none).map Prod.fst

/-- Pure form of LoadBalancer.release_account applied to the released account.
Natural subtraction gives the floor at 0 of the decrement.  On failure the
counters are bumped; a rate-limited failure writes a 45 s cooldown, and a
consecutive-failure count of 3 or more then overwrites it with a 30 s one,
exactly as the two successive assignments in the source do. -/
def releaseAccount (a : AccountStatus) (success rate_limited : Bool) (now : Nat) : AccountStatus :=
  let a1 := { a with active_requests := a.active_requests - 1 }
  if success then
    { a1 with consecutive_failures := 0 }
  else
    let a2 := { a1 with
      failures := a1.failures + 1,
      consecutive_failures := a1.consecutive_failures + 1,
      last_failure := now }
    let a3 := if rate_limited then { a2 with rate_limited_until := now + 45 } else a2
    if a3.consecutive_failures ≥ 3 then { a3 with rate_limited_until := now + 30 } else a3

/-- Replace the element at one position of a list by the image under f,
leaving every other position alone. -/
def updateAt {α : Type} : List α → Nat → (α → α) → List α
  | [], _, _ => []
  | a :: rest, 0, f => f a :: rest
  | a :: rest, i + 1, f => a :: updateAt rest i f

/-- Effect of a successful selection inside acquire_account: both
active_requests and total_requests are incremented in the same critical
section. -/
def acquireUpdate (a : AccountStatus) : AccountStatus :=
  { a with
    active_requests := a.active_requests + 1,
    total_requests := a.total_requests + 1 }

/-- One locked poll of acquire_account: select the best account and, when one
exists, increment its counters. -/
def acquireOnce (cap now : Nat) (p : List AccountStatus) : Option (Nat × List AccountStatus) :=
  (getBest cap now p).map (fun i => (i, updateAt p i acquireUpdate))

/-- The polling loop of acquire_account over the finite sequence of
(time, pool) observations it makes before its deadline: the first poll that
finds an account returns it, and exhausting the polls is the timeout result. -/
def acquirePoll (cap : Nat) : List (Nat × List AccountStatus) → Option (Nat × List AccountStatus)
  | [] => none
  | (now, p) :: rest =>
    match acquireOnce cap now p with
    | some r => some r
    | none => acquirePoll cap rest

/-- release_account at pool level: the released account is updated in place,
every other account is untouched. -/
def releasePool (p : List AccountStatus) (i : Nat) (success rate_limited : Bool) (now : Nat) :
    List AccountStatus :=
  updateAt p i (fun a => releaseAccount a success rate_limited now)

/-- available_capacity of load_balancer.py: sum of the free slots of the
accounts that are out of cooldown, floored at 0.  Integer arithmetic keeps
the source's possibility of a negative summand. -/
def availableCapacity (cap now : Nat) (p : List AccountStatus) : Int :=
  max 0 (((p.filter fun a => decide (a.rate_limited_until ≤ now)).map
    (fun a => (cap : Int) - (a.active_requests : Int))).sum)

/-- total_capacity of load_balancer.py. -/
def totalCapacity (cap : Nat) (p : List AccountStatus) : Nat :=
  p.length * cap

/-- A fresh account as LoadBalancer.__init__ builds one from a key. -/
def initAccount (key : String) : AccountStatus :=
  { api_key := key }

/-- The initial pool built from the configured keys. -/
def initPool (keys : List String) : List AccountStatus :=
  keys.map initAccount

/-- Pool states reachable from the initial pool through the two locked
operations of the load balancer. -/
inductive Reachable (cap : Nat) (keys : List String) : List AccountStatus → Prop
  | init : Reachable cap keys (initPool keys)
  | acquire {p : List AccountStatus} {now i : Nat} {p1 : List AccountStatus} :
      Reachable cap keys p → acquireOnce cap now p = some (i, p1) → Reachable cap keys p1
  | release {p : List AccountStatus} (i : Nat) (success rate_limited : Bool) (now : Nat) :
      Reachable cap keys p → Reachable cap keys (releasePool p i success rate_limited now)

/-- Head of a nonempty list through get. -/
theorem getCons0 {α : Type} (a : α) (l : List α) (h : 0 < (a :: l).length) :
    (a :: l).get ⟨0, h⟩ = a := rfl

/-- Tail access of a nonempty list through get. -/
theorem getConsS {α : Type} (a : α) (l : List α) (k : Nat) (h : k + 1 < (a :: l).length) :
    (a :: l).get ⟨k + 1, h⟩ = l.get ⟨k, Nat.lt_of_succ_lt_succ h⟩ := rfl

/-- Running the scan with a current best in hand is running it with none and
keeping the better of the two results, the accumulator winning ties. -/
theorem getBestAux_acc (cap now : Nat) (l : List AccountStatus) :
    ∀ (i0 bi bs : Nat),
      getBestAux cap now l i0 (some (bi, bs)) =
        match getBestAux cap now l i0 none with
        | none => some (bi, bs)
        | some (i, s) => if s < bs then some (i, s) else some (bi, bs) := by
  induction l with
  | nil => intro i0 bi bs; rfl
  | cons a rest ih =>
    intro i0 bi bs
    by_cases h : eligible cap now a
    · simp only [getBestAux, h, if_true]
      rw [ih (i0 + 1) i0 (score a), ih (i0 + 1) bi bs]
      rcases hF : getBestAux cap now rest (i0 + 1) none with _ | ⟨i, s⟩
      · rfl
      · dsimp only
        by_cases h1 : s < score a
        · rw [if_pos h1]
          dsimp only
          split_ifs <;> first | rfl | omega
        · rw [if_neg h1]
          dsimp only
          split_ifs <;> first | rfl | omega
    · rw [Bool.not_eq_true] at h
      simp only [getBestAux, h, Bool.false_eq_true, if_false]
      exact ih (i0 + 1) bi bs

/-- The scan with no current best returns none exactly when no account of the
list is eligible. -/
theorem getBestAux_none_iff (cap now : Nat) (l : List AccountStatus) :
    ∀ i0, getBestAux cap now l i0 none = none ↔
      ∀ k (hk : k < l.length), eligible cap now (l.get ⟨k, hk⟩) = false := by
  induction l with
  | nil =>
    intro i0
    constructor
    · intro _ k hk
      exact absurd hk (by simp)
    · intro _; rfl
  | cons a rest ih =>
    intro i0
    by_cases h : eligible cap now a
    · simp only [getBestAux, h, if_true]
      constructor
      · intro hnone
        rw [getBestAux_acc] at hnone
        rcases hF : getBestAux cap now rest (i0 + 1) none with _ | ⟨i, s⟩ <;>
            rw [hF] at hnone <;> dsimp only at hnone
        · exact absurd hnone (by simp)
        · split_ifs at hnone
      · intro hall
        have h0 := hall 0 (by simp)
        rw [getCons0] at h0
        rw [h] at h0
        simp at h0
    · rw [Bool.not_eq_true] at h
      simp only [getBestAux, h, Bool.false_eq_true, if_false]
      rw [ih (i0 + 1)]
      constructor
      · intro hall k hk
        match k with
        | 0 => rw [getCons0]; exact h
        | k + 1 =>
          rw [getConsS]
          exact hall k (Nat.lt_of_succ_lt_succ hk)
      · intro hall k hk
        have := hall (k + 1) (by simpa using Nat.succ_lt_succ hk)
        rwa [getConsS] at this

/-- Soundness of the scan with no current best: a returned pair names an
eligible account at the returned offset; its score is minimal among the
eligible accounts and strictly beats every earlier eligible account. -/
theorem getBestAux_none_some (cap now : Nat) (l : List AccountStatus) :
    ∀ i0 i s, getBestAux cap now l i0 none = some (i, s) →
      ∃ (k : Nat) (hk : k < l.length),
        i = i0 + k ∧ eligible cap now (l.get ⟨k, hk⟩) = true ∧
        s = score (l.get ⟨k, hk⟩) ∧
        (∀ k' (hk' : k' < l.length), eligible cap now (l.get ⟨k', hk'⟩) = true →
          s ≤ score (l.get ⟨k', hk'⟩)) ∧
        (∀ k' (hk' : k' < l.length), k' < k → eligible cap now (l.get ⟨k', hk'⟩) = true →
          s < score (l.get ⟨k', hk'⟩)) := by
  induction l with
  | nil => intro i0 i s h; exact absurd h (by simp [getBestAux])
  | cons a rest ih =>
    intro i0 i s h
    by_cases ha : eligible cap now a
    · simp only [getBestAux, ha, if_true] at h
      rw [getBestAux_acc] at h
      rcases hF : getBestAux cap now rest (i0 + 1) none with _ | ⟨i', s'⟩ <;>
        rw [hF] at h <;> dsimp only at h
      · simp only [Option.some.injEq, Prod.mk.injEq] at h
        obtain ⟨rfl, rfl⟩ := h
        refine ⟨0, by simp, by omega, by rw [getCons0]; exact ha, by rw [getCons0], ?_, ?_⟩
        · intro k' hk' helig
          match k' with
          | 0 => rw [getCons0]
          | k' + 1 =>
            exfalso
            have hall := (getBestAux_none_iff cap now rest (i0 + 1)).mp hF
            have hk2 : k' < rest.length := Nat.lt_of_succ_lt_succ hk'
            have hfalse := hall k' hk2
            rw [getConsS] at helig
            rw [helig] at hfalse
            simp at hfalse
        · intro k' _ hk0 _
          exact absurd hk0 (Nat.not_lt_zero k')
      · obtain ⟨k1, hk1, hi', helig', hs', hmin', hstrict'⟩ := ih (i0 + 1) i' s' hF
        by_cases hlt : s' < score a
        · rw [if_pos hlt] at h
          simp only [Option.some.injEq, Prod.mk.injEq] at h
          obtain ⟨rfl, rfl⟩ := h
          refine ⟨k1 + 1, by simpa using Nat.succ_lt_succ hk1, by omega, ?_, ?_, ?_, ?_⟩
          · rw [getConsS]; exact helig'
          · rw [getConsS]; exact hs'
          · intro k' hk' helig
            match k' with
            | 0 =>
              rw [getCons0]
              omega
            | k' + 1 =>
              rw [getConsS]
              rw [getConsS] at helig
              exact hmin' k' (Nat.lt_of_succ_lt_succ hk') helig
          · intro k' hk' hklt helig
            match k' with
            | 0 =>
              rw [getCons0]
              exact hlt
            | k' + 1 =>
              rw [getConsS]
              rw [getConsS] at helig
              exact hstrict' k' (Nat.lt_of_succ_lt_succ hk')
                (Nat.lt_of_succ_lt_succ hklt) helig
        · rw [if_neg hlt] at h
          simp only [Option.some.injEq, Prod.mk.injEq] at h
          obtain ⟨rfl, rfl⟩ := h
          refine ⟨0, by simp, by omega, by rw [getCons0]; exact ha, by rw [getCons0], ?_, ?_⟩
          · intro k' hk' helig
            match k' with
            | 0 => rw [getCons0]
            | k' + 1 =>
              rw [getConsS]
              rw [getConsS] at helig
              have := hmin' k' (Nat.lt_of_succ_lt_succ hk') helig
              omega
          · intro k' _ hk0 _
            exact absurd hk0 (Nat.not_lt_zero k')
    · rw [Bool.not_eq_true] at ha
      simp only [getBestAux, ha, Bool.false_eq_true, if_false] at h
      obtain ⟨k1, hk1, hi', helig', hs', hmin', hstrict'⟩ := ih (i0 + 1) i s h
      refine ⟨k1 + 1, by simpa using Nat.succ_lt_succ hk1, by omega, ?_, ?_, ?_, ?_⟩
      · rw [getConsS]; exact helig'
      · rw [getConsS]; exact hs'
      · intro k' hk' helig
        match k' with
        | 0 =>
          rw [getCons0] at helig
          rw [ha] at helig
          exact absurd helig (by simp)
        | k' + 1 =>
          rw [getConsS]
          rw [getConsS] at helig
          exact hmin' k' (Nat.lt_of_succ_lt_succ hk') helig
      · intro k' hk' hklt helig
        match k' with
        | 0 =>
          rw [getCons0] at helig
          rw [ha] at helig
          exact absurd helig (by simp)
        | k' + 1 =>
          rw [getConsS]
          rw [getConsS] at helig
          exact hstrict' k' (Nat.lt_of_succ_lt_succ hk')
            (Nat.lt_of_succ_lt_succ hklt) helig

/-- What _get_best_account guarantees about a returned index: it is in range,
eligible, of minimal score, and the first index attaining that minimum. -/
theorem getBest_spec (cap now : Nat) (p : List AccountStatus) (i : Nat)
    (h : getBest cap now p = some i) :
    ∃ hi : i < p.length,
      eligible cap now (p.get ⟨i, hi⟩) = true ∧
      (∀ j (hj : j < p.length), eligible cap now (p.get ⟨j, hj⟩) = true →
        score (p.get ⟨i, hi⟩) ≤ score (p.get ⟨j, hj⟩)) ∧
      (∀ j (hj : j < p.length), j < i → eligible cap now (p.get ⟨j, hj⟩) = true →
        score (p.get ⟨i, hi⟩) < score (p.get ⟨j, hj⟩)) := by
  unfold getBest at h
  rcases hF : getBestAux cap now p 0 none with _ | ⟨i', s⟩ <;> rw [hF] at h
  · simp at h
  · simp only [Option.map_some', Option.some.injEq] at h
    obtain ⟨k, hk, hi', helig, hs, hmin, hstrict⟩ := getBestAux_none_some cap now p 0 i' s hF
    have hik : i = k := by omega
    subst hik
    subst hs
    exact ⟨hk, helig, hmin, hstrict⟩

/-- When no account is eligible, _get_best_account returns none. -/
theorem getBest_none (cap now : Nat) (p : List AccountStatus)
    (h : ∀ k (hk : k < p.length), eligible cap now (p.get ⟨k, hk⟩) = false) :
    getBest cap now p = none := by
  unfold getBest
  rw [(getBestAux_none_iff cap now p 0).mpr h]
  rfl

/-- updateAt keeps the length of the list. -/
theorem updateAt_length {α : Type} (f : α → α) :
    ∀ (l : List α) (i : Nat), (updateAt l i f).length = l.length := by
  intro l
  induction l with
  | nil => intro i; rfl
  | cons a rest ih =>
    intro i
    match i with
    | 0 => rfl
    | i + 1 => simp [updateAt, ih i]

/-- updateAt leaves every other position untouched. -/
theorem updateAt_getq_ne {α : Type} (f : α → α) :
    ∀ (l : List α) (i j : Nat), j ≠ i → (updateAt l i f)[j]? = l[j]? := by
  intro l
  induction l with
  | nil => intro i j _; rfl
  | cons a rest ih =>
    intro i j hne
    match i, j with
    | 0, 0 => exact absurd rfl hne
    | 0, j + 1 => simp [updateAt]
    | i + 1, 0 => simp [updateAt]
    | i + 1, j + 1 =>
      simp only [updateAt, List.getElem?_cons_succ]
      exact ih i j (by omega)

/-- updateAt maps the value at the updated position. -/
theorem updateAt_getq_eq {α : Type} (f : α → α) :
    ∀ (l : List α) (i : Nat), (updateAt l i f)[i]? = (l[i]?).map f := by
  intro l
  induction l with
  | nil => intro i; cases i <;> rfl
  | cons a rest ih =>
    intro i
    match i with
    | 0 => simp [updateAt]
    | i + 1 =>
      simp only [updateAt, List.getElem?_cons_succ]
      exact ih i

/-- Membership after updateAt: either an untouched element of the original
list, or the image of the element at the updated position. -/
theorem mem_updateAt {α : Type} (f : α → α) :
    ∀ (l : List α) (i : Nat) (x : α), x ∈ updateAt l i f →
      x ∈ l ∨ ∃ hi : i < l.length, x = f (l.get ⟨i, hi⟩) := by
  intro l
  induction l with
  | nil => intro i x hx; exact absurd hx (by simp [updateAt])
  | cons a rest ih =>
    intro i x hx
    match i with
    | 0 =>
      rcases List.mem_cons.mp hx with hx | hx
      · exact Or.inr ⟨by simp, hx⟩
      · exact Or.inl (List.mem_cons_of_mem a hx)
    | i + 1 =>
      rcases List.mem_cons.mp hx with hx | hx
      · exact Or.inl (hx ▸ List.mem_cons_self a rest)
      · rcases ih i x hx with hmem | ⟨hi, hEq⟩
        · exact Or.inl (List.mem_cons_of_mem a hmem)
        · exact Or.inr ⟨by simpa using Nat.succ_lt_succ hi, by rw [getConsS]; exact hEq⟩

/-- release_account always decrements active_requests by one, floored at 0. -/
theorem releaseAccount_active (a : AccountStatus) (success rate_limited : Bool) (now : Nat) :
    (releaseAccount a success rate_limited now).active_requests = a.active_requests - 1 := by
  cases success <;> cases rate_limited <;> simp only [releaseAccount] <;> split_ifs <;> rfl

/-- A successful release only decrements active_requests and resets
consecutive_failures; every other field keeps its value. -/
theorem releaseAccount_success (a : AccountStatus) (rate_limited : Bool) (now : Nat) :
    releaseAccount a true rate_limited now =
      { a with active_requests := a.active_requests - 1, consecutive_failures := 0 } := rfl

/-- List-level check that pat occurs at the head of l. -/
def hasPfx : List Char → List Char → Bool
  | [], _ => true
  | _ :: _, [] => false
  | c :: cs, d :: ds => c == d && hasPfx cs ds

/-- List-level substring containment. -/
def hasSub (pat : List Char) : List Char → Bool
  | [] => hasPfx pat []
  | c :: cs => hasPfx pat (c :: cs) || hasSub pat cs

/-- Python's "pat in s" on strings. -/
def strContains (s pat : String) : Bool :=
  hasSub pat.data s.data

/-- Python's str.lower, character by character. -/
def lowerStr (s : String) : String :=
  ⟨s.data.map Char.toLower⟩

/-- rate_limited argument of the release on the normal result path of
_generate_single_with_retry: "rate" in (result.error or "").lower(). -/
def rateLimitedFlagResult (error : Option String) : Bool :=
  strContains (lowerStr (error.getD "")) "rate"

/-- rate_limited argument of the release on the exception path of
_generate_single_with_retry: "429" in str(e). -/
def rateLimitedFlagExc (e : String) : Bool :=
  strContains e "429"

/-- Rate-limit test as the specification words it for every failure path:
case-insensitive "rate" or presence of "429".  Written for comparison with
the two distinct tests the source applies. -/
def specRateLimitedFlag (msg : String) : Bool :=
  strContains (lowerStr msg) "rate" || strContains msg "429"

/-- Non-retryable error test of _generate_single_with_retry: the lowered
error text contains "safety", "blocked" or "invalid". -/
def isTerminalError (msg : String) : Bool :=
  strContains (lowerStr msg) "safety" || strContains (lowerStr msg) "blocked" ||
    strContains (lowerStr msg) "invalid"

/-- What one attempt of _generate_single_with_retry observes: the acquire
times out, or the generation call returns success, returns a failure with an
error text, or raises an exception with a text. -/
inductive AttemptOutcome where
  | acquireTimeout
  | genOk
  | genErr (msg : String)
  | genRaise (msg : String)
deriving Repr, DecidableEq

/-- Observable outcome of _generate_single_with_retry: the terminal result
together with the trace of release calls (success flag, rate_limited flag)
and of backoff sleep durations, in order. -/
structure RunResult where
  success : Bool
  error : Option String
  attemptsUsed : Nat
  releases : List (Bool × Bool)
  sleeps : List Nat
deriving Repr, DecidableEq

/-- Error text recorded when acquire_account returns no account. -/
def noAccountMsg : String := "No available API accounts"

/-- Python's `last_error or "Unknown error"` of the terminal return: an
unset or empty last error is replaced. -/
def pyOrUnknown : Option String → String
  | none => "Unknown error"
  | some m => if m == "" then "Unknown error" else m

/-- Terminal failure record built after the loop of
_generate_single_with_retry ends. -/
def finishFail (lastError : Option String) (attempts : Nat) (rels : List (Bool × Bool))
    (slps : List Nat) : RunResult :=
  { success := false, error := some (pyOrUnknown lastError), attemptsUsed := attempts,
    releases := rels, sleeps := slps }

/-- Body of the attempt loop of _generate_single_with_retry, recursion on the
remaining attempts.  attempt is the 0-based python loop index; an acquire
timeout records the error and continues, skipping the backoff sleep; a
successful generation returns at once; a failure releases with the
result-path rate test and either stops (non-retryable text) or sleeps
retry_delay * (attempt + 1) when attempts remain; an exception releases with
the exception-path rate test and then follows the same sleep-and-retry
tail. -/
def runFrom (maxRetries retryDelay : Nat) (o : Nat → AttemptOutcome) :
    Nat → Nat → Option String → List (Bool × Bool) → List Nat → RunResult
  | attempt, 0, lastError, rels, slps => finishFail lastError attempt rels slps
  | attempt, r + 1, _, rels, slps =>
    match o attempt with
    | .acquireTimeout =>
      runFrom maxRetries retryDelay o (attempt + 1) r (some noAccountMsg) rels slps
    | .genOk =>
      { success := true, error := none, attemptsUsed := attempt + 1,
        releases := rels ++ [(true, rateLimitedFlagResult none)], sleeps := slps }
    | .genErr msg =>
      let rels1 := rels ++ [(false, rateLimitedFlagResult (some msg))]
      if isTerminalError msg then
        finishFail (some msg) (attempt + 1) rels1 slps
      else
        let slps1 := if attempt < maxRetries - 1 then slps ++ [retryDelay * (attempt + 1)]
          else slps
        runFrom maxRetries retryDelay o (attempt + 1) r (some msg) rels1 slps1
    | .genRaise msg =>
      let rels1 := rels ++ [(false, rateLimitedFlagExc msg)]
      let slps1 := if attempt < maxRetries - 1 then slps ++ [retryDelay * (attempt + 1)]
        else slps
      runFrom maxRetries retryDelay o (attempt + 1) r (some msg) rels1 slps1

/-- Whole run of the attempt loop with budget maxRetries. -/
def retryRun (maxRetries retryDelay : Nat) (o : Nat → AttemptOutcome) : RunResult :=
  runFrom maxRetries retryDelay o 0 maxRetries none [] []

/-- _generate_single_with_retry with the constants of ImageGenerator.__init__:
max_retries = 3 and retry_delay = 5. -/
def generateWithRetry (o : Nat → AttemptOutcome) : RunResult :=
  retryRun 3 5 o

/-- Per-job view of a GenerationResult as generate_batch handles it. -/
structure GenRes where
  index : Nat
  success : Bool
deriving Repr, DecidableEq

/-- Partitioned batch outcome of generate_batch. -/
structure BatchOut where
  successful : List GenRes
  failed : List GenRes
deriving Repr, DecidableEq

/-- Python's list.sort(key=lambda x: x.index): a stable sort by index. -/
def sortByIndex (l : List GenRes) : List GenRes :=
  l.mergeSort (fun x y => decide (x.index ≤ y.index))

/-- generate_batch after all tasks completed: results arrive in completion
order, are appended to the successful or failed list by their flag, and each
list is then sorted by original index. -/
def generateBatch (order : List GenRes) : BatchOut :=
  { successful := sortByIndex (order.filter (fun r => r.success)),
    failed := sortByIndex (order.filter (fun r => !r.success)) }

/-- Slice of a GenerationResult that ZipSplitter.split_if_needed reads: the
original index and the optional image bytes. -/
structure Payload where
  index : Nat
  image_data : Option (List Nat)
deriving Repr, DecidableEq

/-- len(r.image_data or b"") of delivery.py. -/
def dataSize (r : Payload) : Nat :=
  (r.image_data.getD []).length

/-- MAX_SIZE_BYTES of ZipSplitter. -/
def MAX_SIZE_BYTES : Nat := 50 * 1024 * 1024

/-- MAX_SIZE_BYTES * 0.9 of ZipSplitter, which the source's float
arithmetic evaluates to exactly 47185920 = 45 MiB. -/
def packThreshold : Nat := 47185920

/-- Total payload size estimated at the head of split_if_needed. -/
def totalSize (results : List Payload) : Nat :=
  (results.map dataSize).sum

/-- Splitting loop of split_if_needed: walks the payloads, skipping entries
without data; when current_size + image_size exceeds the threshold the
current archive is closed (appended as it stands) and a fresh one is started
with the item; otherwise the item joins the current archive; the last archive
is closed after the walk. -/
def splitLoop : List Payload → List (List Payload) → List Payload → Nat → List (List Payload)
  | [], zips, cur, _ => zips ++ [cur]
  | r :: rest, zips, cur, curSize =>
    if dataSize r = 0 then splitLoop rest zips cur curSize
    else if curSize + dataSize r > packThreshold then
      splitLoop rest (zips ++ [cur]) [r] (dataSize r)
    else
      splitLoop rest zips (cur ++ [r]) (curSize + dataSize r)

/-- ZipSplitter.split_if_needed: one archive holding every payload with data
when the estimated total stays under the threshold, else the splitting
loop. -/
def splitIfNeeded (results : List Payload) : List (List Payload) :=
  if totalSize results < packThreshold then
    [results.filter (fun r => !(dataSize r == 0))]
  else
    splitLoop results [] [] 0

/-- Closed form of a failed rate-limited release: the cooldown written is
45 s unless the consecutive-failure overwrite fires, in which case 30 s. -/
theorem releaseAccount_fail_rl (a : AccountStatus) (now : Nat) :
    releaseAccount a false true now =
      if a.consecutive_failures + 1 ≥ 3 then
        { a with
          active_requests := a.active_requests - 1,
          failures := a.failures + 1,
          consecutive_failures := a.consecutive_failures + 1,
          last_failure := now,
          rate_limited_until := now + 30 }
      else
        { a with
          active_requests := a.active_requests - 1,
          failures := a.failures + 1,
          consecutive_failures := a.consecutive_failures + 1,
          last_failure := now,
          rate_limited_until := now + 45 } := by
  unfold releaseAccount
  dsimp only
  split_ifs <;> first | rfl | simp_all

/-- C2 counterexample: releasing with success=False, rateLimited=True a
credential whose consecutive failures reach 3 at this release leaves a
cooldown of only 30 s, not at least 45 s: at release time 100 the deadline
is 130 < 145. -/
theorem c2_counterexample :
    (releaseAccount
      { api_key := "k", active_requests := 1, total_requests := 5, failures := 2,
        last_failure := 0, rate_limited_until := 0, consecutive_failures := 2 }
      false true 100).rate_limited_until = 130 ∧ (130 : Nat) < 100 + 45 := by
  decide

/-- C2 (amended): after release(c, success=False, rateLimited=True) at time
now, the cooldown deadline is now + 45 when the updated consecutiveFailures
stays below 3 and now + 30 when it reaches 3 (the consecutive-failure
overwrite wins); in either case the deadline is at least now + 30, strictly
in the future, and the credential is never the index selected by
_get_best_account at any time before the deadline. -/
theorem c2_rate_limited_release_cooldown (a : AccountStatus) (now : Nat) :
    ((releaseAccount a false true now).consecutive_failures < 3 →
      (releaseAccount a false true now).rate_limited_until = now + 45) ∧
    (3 ≤ (releaseAccount a false true now).consecutive_failures →
      (releaseAccount a false true now).rate_limited_until = now + 30) ∧
    now + 30 ≤ (releaseAccount a false true now).rate_limited_until ∧
    now < (releaseAccount a false true now).rate_limited_until ∧
    (∀ (cap t : Nat) (p : List AccountStatus) (i : Nat) (hi : i < p.length) (j : Nat),
      p.get ⟨i, hi⟩ = releaseAccount a false true now →
      t < (releaseAccount a false true now).rate_limited_until →
      getBest cap t p = some j → j ≠ i) := by
  have hcf : (releaseAccount a false true now).consecutive_failures =
      a.consecutive_failures + 1 := by
    rw [releaseAccount_fail_rl]
    split_ifs <;> rfl
  have hcool : (releaseAccount a false true now).rate_limited_until =
      if a.consecutive_failures + 1 ≥ 3 then now + 30 else now + 45 := by
    rw [releaseAccount_fail_rl]
    split_ifs <;> rfl
  refine ⟨?_, ?_, ?_, ?_, ?_⟩
  · intro hlt
    rw [hcf] at hlt
    rw [hcool, if_neg (by omega)]
  · intro hge
    rw [hcf] at hge
    rw [hcool, if_pos (by omega)]
  · rw [hcool]; split_ifs <;> omega
  · rw [hcool]; split_ifs <;> omega
  · intro cap t p i hi j hEq ht hbest hji
    subst hji
    obtain ⟨hj, helig, _, _⟩ := getBest_spec cap t p j hbest
    have hgets : p.get ⟨j, hj⟩ = releaseAccount a false true now := hEq
    rw [hgets] at helig
    simp only [eligible, Bool.and_eq_true, Bool.not_eq_true', decide_eq_false_iff_not,
      decide_eq_true_eq, not_lt, gt_iff_lt] at helig
    omega

/-- C2 amended witness: concrete instance with one prior consecutive
failure, released at time 100. -/
theorem c2_rate_limited_release_cooldown_witness :
    ((releaseAccount { api_key := "k", consecutive_failures := 1 } false true 100).consecutive_failures < 3 →
      (releaseAccount { api_key := "k", consecutive_failures := 1 } false true 100).rate_limited_until = 100 + 45) ∧
    (3 ≤ (releaseAccount { api_key := "k", consecutive_failures := 1 } false true 100).consecutive_failures →
      (releaseAccount { api_key := "k", consecutive_failures := 1 } false true 100).rate_limited_until = 100 + 30) ∧
    100 + 30 ≤ (releaseAccount { api_key := "k", consecutive_failures := 1 } false true 100).rate_limited_until ∧
    100 < (releaseAccount { api_key := "k", consecutive_failures := 1 } false true 100).rate_limited_until ∧
    (∀ (cap t : Nat) (p : List AccountStatus) (i : Nat) (hi : i < p.length) (j : Nat),
      p.get ⟨i, hi⟩ = releaseAccount { api_key := "k", consecutive_failures := 1 } false true 100 →
      t < (releaseAccount { api_key := "k", consecutive_failures := 1 } false true 100).rate_limited_until →
      getBest cap t p = some j → j ≠ i) :=
  c2_rate_limited_release_cooldown { api_key := "k", consecutive_failures := 1 } 100

/-- C10: a successful release, for either value of the rateLimited flag,
only decrements the credential's active count (floored at 0 by natural
subtraction) and resets consecutiveFailures; the key, failures,
total_requests, last_failure and rate_limited_until fields keep their
values, and every other slot of the pool is untouched. -/
theorem c10_release_success_frame (a : AccountStatus) (rate_limited : Bool) (now : Nat) :
    releaseAccount a true rate_limited now =
      { a with active_requests := a.active_requests - 1, consecutive_failures := 0 } ∧
    (∀ (p : List AccountStatus) (i j : Nat), j ≠ i →
      (releasePool p i true rate_limited now)[j]? = p[j]?) ∧
    (∀ (p : List AccountStatus) (i : Nat),
      (releasePool p i true rate_limited now)[i]? =
        (p[i]?).map (fun x =>
          { x with active_requests := x.active_requests - 1, consecutive_failures := 0 })) := by
  refine ⟨rfl, ?_, ?_⟩
  · intro p i j hne
    exact updateAt_getq_ne _ p i j hne
  · intro p i
    rw [releasePool, updateAt_getq_eq]
    cases p[i]? with
    | none => rfl
    | some x => rfl

/-- Splitting an acquireOnce success into its selection and pool update. -/
theorem acquireOnce_inv (cap now : Nat) (p : List AccountStatus) (i : Nat)
    (p1 : List AccountStatus) (h : acquireOnce cap now p = some (i, p1)) :
    getBest cap now p = some i ∧ p1 = updateAt p i acquireUpdate := by
  unfold acquireOnce at h
  rcases hb : getBest cap now p with _ | j <;> rw [hb] at h
  · exact absurd h (by simp)
  · simp only [Option.map_some', Option.some.injEq, Prod.mk.injEq] at h
    obtain ⟨rfl, rfl⟩ := h
    exact ⟨rfl, rfl⟩

/-- Invariant of every reachable pool: no account's active count exceeds the
per-account cap. -/
theorem reachable_active_le (cap : Nat) (keys : List String) (p : List AccountStatus)
    (h : Reachable cap keys p) : ∀ a ∈ p, a.active_requests ≤ cap := by
  induction h with
  | init =>
    intro a ha
    obtain ⟨k, _, rfl⟩ := List.mem_map.mp ha
    exact Nat.zero_le cap
  | acquire hreach hacq ih =>
    rename_i p0 now i p1
    obtain ⟨hbest, rfl⟩ := acquireOnce_inv cap now p0 i p1 hacq
    intro a ha
    rcases mem_updateAt acquireUpdate p0 i a ha with hmem | ⟨hi, rfl⟩
    · exact ih a hmem
    · obtain ⟨hi2, helig, _, _⟩ := getBest_spec cap now p0 i hbest
      have hsame : p0.get ⟨i, hi⟩ = p0.get ⟨i, hi2⟩ := rfl
      rw [hsame]
      simp only [eligible, Bool.and_eq_true, decide_eq_true_eq] at helig
      exact helig.2
  | release i success rate_limited now hreach ih =>
    rename_i p0
    intro a ha
    rcases mem_updateAt _ p0 i a ha with hmem | ⟨hi, rfl⟩
    · exact ih a hmem
    · rw [releaseAccount_active]
      exact le_trans (Nat.sub_le _ _) (ih _ (p0.get_mem i hi))

/-- C8: in every reachable pool state each credential's active count stays
within [0, perAccountCap] (the lower bound holds by the Nat representation,
the decrement being floored at 0), and availableCapacity always lies within
[0, totalCapacity]. -/
theorem c8_pool_invariant (cap : Nat) (keys : List String) (p : List AccountStatus) (now : Nat)
    (h : Reachable cap keys p) :
    (∀ a ∈ p, a.active_requests ≤ cap) ∧
    0 ≤ availableCapacity cap now p ∧
    availableCapacity cap now p ≤ (totalCapacity cap p : Int) := by
  refine ⟨reachable_active_le cap keys p h, le_max_left 0 _, ?_⟩
  unfold availableCapacity
  apply max_le
  · unfold totalCapacity
    positivity
  · set f : AccountStatus → Bool := fun a => decide (a.rate_limited_until ≤ now) with hf
    have hterm : ∀ x ∈ (p.filter f).map (fun a => (cap : Int) - (a.active_requests : Int)),
        x ≤ (cap : Int) := by
      intro x hx
      obtain ⟨a, _, rfl⟩ := List.mem_map.mp hx
      omega
    have hsum := List.sum_le_card_nsmul
      ((p.filter f).map (fun a => (cap : Int) - (a.active_requests : Int))) (cap : Int) hterm
    rw [List.length_map, nsmul_eq_mul] at hsum
    have hlen : (((p.filter f).length : Int)) ≤ (p.length : Int) := by
      exact_mod_cast List.length_filter_le f p
    have hmul : ((p.filter f).length : Int) * (cap : Int) ≤ (p.length : Int) * (cap : Int) :=
      mul_le_mul_of_nonneg_right hlen (by positivity)
    have htot : ((totalCapacity cap p : Nat) : Int) = (p.length : Int) * (cap : Int) := by
      unfold totalCapacity
      push_cast
      ring
    rw [htot]
    exact le_trans hsum hmul

/-- C8 witness: the invariant evaluated at the initial one-key pool with
cap 5, observed at time 0. -/
theorem c8_pool_invariant_witness :
    (∀ a ∈ initPool ["k"], a.active_requests ≤ 5) ∧
    0 ≤ availableCapacity 5 0 (initPool ["k"]) ∧
    availableCapacity 5 0 (initPool ["k"]) ≤ (totalCapacity 5 (initPool ["k"]) : Int) :=
  c8_pool_invariant 5 ["k"] (initPool ["k"]) 0 Reachable.init

/-- Exhausting every poll with no acquireOnce success is the timeout. -/
theorem acquirePoll_none (cap : Nat) :
    ∀ polls : List (Nat × List AccountStatus),
      (∀ q ∈ polls, acquireOnce cap q.1 q.2 = none) → acquirePoll cap polls = none := by
  intro polls
  induction polls with
  | nil => intro _; rfl
  | cons q rest ih =>
    intro hall
    obtain ⟨now, p⟩ := q
    have hq : acquireOnce cap now p = none := hall (now, p) (List.mem_cons_self _ _)
    simp only [acquirePoll, hq]
    exact ih (fun q hq2 => hall q (List.mem_cons_of_mem _ hq2))

/-- C9: a successful selection picks the in-range, eligible credential of
lowest score, strictly beating every earlier eligible credential (ties go to
pool iteration order); acquireOnce then increments exactly that credential's
active_requests and total_requests inside the same step and leaves every
other slot alone; and when no eligible credential appears in any poll,
acquire returns the timeout result none. -/
theorem c9_acquire_selection (cap now : Nat) (p : List AccountStatus) :
    (∀ i, getBest cap now p = some i →
      ∃ hi : i < p.length,
        eligible cap now (p.get ⟨i, hi⟩) = true ∧
        (∀ j (hj : j < p.length), eligible cap now (p.get ⟨j, hj⟩) = true →
          score (p.get ⟨i, hi⟩) ≤ score (p.get ⟨j, hj⟩)) ∧
        (∀ j (hj : j < p.length), j < i → eligible cap now (p.get ⟨j, hj⟩) = true →
          score (p.get ⟨i, hi⟩) < score (p.get ⟨j, hj⟩)) ∧
        acquireOnce cap now p = some (i, updateAt p i acquireUpdate) ∧
        (updateAt p i acquireUpdate)[i]? = some
          { p.get ⟨i, hi⟩ with
            active_requests := (p.get ⟨i, hi⟩).active_requests + 1,
            total_requests := (p.get ⟨i, hi⟩).total_requests + 1 } ∧
        (∀ j, j ≠ i → (updateAt p i acquireUpdate)[j]? = p[j]?)) ∧
    ((∀ j (hj : j < p.length), eligible cap now (p.get ⟨j, hj⟩) = false) →
      getBest cap now p = none) ∧
    (∀ polls : List (Nat × List AccountStatus),
      (∀ q ∈ polls, ∀ j (hj : j < q.2.length), eligible cap q.1 (q.2.get ⟨j, hj⟩) = false) →
      acquirePoll cap polls = none) := by
  refine ⟨?_, getBest_none cap now p, ?_⟩
  · intro i hbest
    obtain ⟨hi, helig, hmin, hstrict⟩ := getBest_spec cap now p i hbest
    refine ⟨hi, helig, hmin, hstrict, ?_, ?_, ?_⟩
    · unfold acquireOnce
      rw [hbest]
      rfl
    · rw [updateAt_getq_eq]
      rw [List.getElem?_eq_getElem hi]
      rfl
    · intro j hne
      exact updateAt_getq_ne _ p i j hne
  · intro polls hall
    apply acquirePoll_none
    intro q hq
    unfold acquireOnce
    rw [getBest_none cap q.1 q.2 (hall q hq)]
    rfl

/-- Each partition of generate_batch is pairwise ordered by index after the
final sort. -/
theorem sortByIndex_pairwise (l : List GenRes) :
    List.Pairwise (fun a b : GenRes => a.index ≤ b.index) (sortByIndex l) := by
  unfold sortByIndex
  have h := @List.sorted_mergeSort GenRes (fun x y : GenRes => decide (x.index ≤ y.index))
    (fun a b c hab hbc =>
      decide_eq_true (Nat.le_trans (of_decide_eq_true hab) (of_decide_eq_true hbc)))
    (fun a b => by
      rcases Nat.le_total a.index b.index with h1 | h1
      · show (decide (a.index ≤ b.index) || decide (b.index ≤ a.index)) = true
        rw [decide_eq_true h1]
        exact Bool.true_or _
      · show (decide (a.index ≤ b.index) || decide (b.index ≤ a.index)) = true
        rw [decide_eq_true h1]
        exact Bool.or_true _)
    l
  exact h.imp (fun hab => of_decide_eq_true hab)

/-- C1: when the completion-order results carry each of the indices 0..N-1
exactly once, the dispatched BatchResult partitions them: the successful and
failed lists together have length N, their indices are exactly 0..N-1 with
each index once, and each list is strictly ascending by index. -/
theorem c1_batch_partition (order : List GenRes) (N : Nat)
    (h : (order.map GenRes.index).Perm (List.range N)) :
    (generateBatch order).successful.length + (generateBatch order).failed.length = N ∧
    (((generateBatch order).successful.map GenRes.index) ++
      ((generateBatch order).failed.map GenRes.index)).Perm (List.range N) ∧
    List.Pairwise (· < ·) ((generateBatch order).successful.map GenRes.index) ∧
    List.Pairwise (· < ·) ((generateBatch order).failed.map GenRes.index) := by
  have hperm0 : ((order.filter fun r => r.success) ++ (order.filter fun r => !r.success)).Perm
      order := List.filter_append_perm _ order
  have hps : (sortByIndex (order.filter fun r => r.success)).Perm
      (order.filter fun r => r.success) := List.mergeSort_perm _ _
  have hpf : (sortByIndex (order.filter fun r => !r.success)).Perm
      (order.filter fun r => !r.success) := List.mergeSort_perm _ _
  have happ : ((generateBatch order).successful ++ (generateBatch order).failed).Perm order :=
    (hps.append hpf).trans hperm0
  have hidx : (((generateBatch order).successful ++ (generateBatch order).failed).map
      GenRes.index).Perm (List.range N) := (happ.map GenRes.index).trans h
  have hidx2 : (((generateBatch order).successful.map GenRes.index) ++
      ((generateBatch order).failed.map GenRes.index)).Perm (List.range N) := by
    rw [← List.map_append]
    exact hidx
  have hnd : (((generateBatch order).successful.map GenRes.index) ++
      ((generateBatch order).failed.map GenRes.index)).Nodup :=
    hidx2.symm.nodup (List.nodup_range N)
  have hndS : ((generateBatch order).successful.map GenRes.index).Nodup :=
    hnd.of_append_left
  have hndF : ((generateBatch order).failed.map GenRes.index).Nodup := by
    have := List.Perm.nodup (List.perm_append_comm) hnd
    exact this.of_append_left
  have hleS : List.Pairwise (· ≤ ·) ((generateBatch order).successful.map GenRes.index) :=
    List.pairwise_map.mpr (sortByIndex_pairwise _)
  have hleF : List.Pairwise (· ≤ ·) ((generateBatch order).failed.map GenRes.index) :=
    List.pairwise_map.mpr (sortByIndex_pairwise _)
  refine ⟨?_, hidx2, ?_, ?_⟩
  · have h1 := happ.length_eq
    have h2 := h.length_eq
    rw [List.length_append] at h1
    rw [List.length_map, List.length_range] at h2
    omega
  · exact (hleS.and hndS).imp (fun hx => lt_of_le_of_ne hx.1 hx.2)
  · exact (hleF.and hndF).imp (fun hx => lt_of_le_of_ne hx.1 hx.2)

/-- C1 witness: a two-job batch completing out of order, one success and one
failure. -/
theorem c1_batch_partition_witness :
    (generateBatch [⟨1, false⟩, ⟨0, true⟩]).successful.length +
      (generateBatch [⟨1, false⟩, ⟨0, true⟩]).failed.length = 2 ∧
    (((generateBatch [⟨1, false⟩, ⟨0, true⟩]).successful.map GenRes.index) ++
      ((generateBatch [⟨1, false⟩, ⟨0, true⟩]).failed.map GenRes.index)).Perm (List.range 2) ∧
    List.Pairwise (· < ·) ((generateBatch [⟨1, false⟩, ⟨0, true⟩]).successful.map GenRes.index) ∧
    List.Pairwise (· < ·) ((generateBatch [⟨1, false⟩, ⟨0, true⟩]).failed.map GenRes.index) :=
  c1_batch_partition [⟨1, false⟩, ⟨0, true⟩] 2 (by decide)

/-- Release event each attempt outcome causes, per the source's two distinct
rate tests: the result path applies only the case-insensitive "rate" test,
the exception path only the literal "429" test, and a timed-out acquire
releases nothing. -/
def releaseOfOutcome : AttemptOutcome → Option (Bool × Bool)
  | .acquireTimeout => none
  | .genOk => some (true, rateLimitedFlagResult none)
  | .genErr msg => some (false, rateLimitedFlagResult (some msg))
  | .genRaise msg => some (false, rateLimitedFlagExc msg)

/-- The release trace of the attempt loop: every attempt that reaches the
generation call appends exactly the release event of its outcome, in attempt
order; attempts only move forward. -/
theorem runFrom_releases (M D : Nat) (o : Nat → AttemptOutcome) :
    ∀ (r a : Nat) (le : Option String) (rels : List (Bool × Bool)) (slps : List Nat),
      a ≤ (runFrom M D o a r le rels slps).attemptsUsed ∧
      (runFrom M D o a r le rels slps).releases =
        rels ++ (List.range' a ((runFrom M D o a r le rels slps).attemptsUsed - a)).filterMap
          (fun n => releaseOfOutcome (o n)) := by
  intro r
  induction r with
  | zero =>
    intro a le rels slps
    refine ⟨Nat.le_refl a, ?_⟩
    simp [runFrom, finishFail]
  | succ r ih =>
    intro a le rels slps
    rcases ho : o a with _ | _ | msg | msg
    · obtain ⟨hle, hrel⟩ := ih (a + 1) (some noAccountMsg) rels slps
      have hstep : runFrom M D o a (r + 1) le rels slps =
          runFrom M D o (a + 1) r (some noAccountMsg) rels slps := by
        simp [runFrom, ho]
      rw [hstep]
      refine ⟨le_trans (Nat.le_succ a) hle, ?_⟩
      rw [hrel]
      have hcount : (runFrom M D o (a + 1) r (some noAccountMsg) rels slps).attemptsUsed - a =
          ((runFrom M D o (a + 1) r (some noAccountMsg) rels slps).attemptsUsed - (a + 1)) + 1 := by
        omega
      rw [hcount, List.range'_succ]
      simp [List.filterMap_cons, releaseOfOutcome, ho]
    · have hstep : runFrom M D o a (r + 1) le rels slps =
          { success := true, error := none, attemptsUsed := a + 1,
            releases := rels ++ [(true, rateLimitedFlagResult none)], sleeps := slps } := by
        simp [runFrom, ho]
      rw [hstep]
      refine ⟨Nat.le_succ a, ?_⟩
      simp [List.range'_succ, releaseOfOutcome, ho]
    · by_cases ht : isTerminalError msg
      · have hstep : runFrom M D o a (r + 1) le rels slps =
            finishFail (some msg) (a + 1)
              (rels ++ [(false, rateLimitedFlagResult (some msg))]) slps := by
          simp [runFrom, ho, ht]
        rw [hstep]
        refine ⟨Nat.le_succ a, ?_⟩
        simp [finishFail, List.range'_succ, releaseOfOutcome, ho]
      · have hstep : runFrom M D o a (r + 1) le rels slps =
            runFrom M D o (a + 1) r (some msg)
              (rels ++ [(false, rateLimitedFlagResult (some msg))])
              (if a < M - 1 then slps ++ [D * (a + 1)] else slps) := by
          simp [runFrom, ho, ht]
        rw [hstep]
        obtain ⟨hle, hrel⟩ := ih (a + 1) (some msg)
          (rels ++ [(false, rateLimitedFlagResult (some msg))])
          (if a < M - 1 then slps ++ [D * (a + 1)] else slps)
        refine ⟨le_trans (Nat.le_succ a) hle, ?_⟩
        rw [hrel]
        have hcount : (runFrom M D o (a + 1) r (some msg)
            (rels ++ [(false, rateLimitedFlagResult (some msg))])
            (if a < M - 1 then slps ++ [D * (a + 1)] else slps)).attemptsUsed - a =
            ((runFrom M D o (a + 1) r (some msg)
            (rels ++ [(false, rateLimitedFlagResult (some msg))])
            (if a < M - 1 then slps ++ [D * (a + 1)] else slps)).attemptsUsed - (a + 1)) + 1 := by
          omega
        rw [hcount, List.range'_succ]
        simp [List.filterMap_cons, releaseOfOutcome, ho]
    · have hstep : runFrom M D o a (r + 1) le rels slps =
          runFrom M D o (a + 1) r (some msg)
            (rels ++ [(false, rateLimitedFlagExc msg)])
            (if a < M - 1 then slps ++ [D * (a + 1)] else slps) := by
        simp [runFrom, ho]
      rw [hstep]
      obtain ⟨hle, hrel⟩ := ih (a + 1) (some msg)
        (rels ++ [(false, rateLimitedFlagExc msg)])
        (if a < M - 1 then slps ++ [D * (a + 1)] else slps)
      refine ⟨le_trans (Nat.le_succ a) hle, ?_⟩
      rw [hrel]
      have hcount : (runFrom M D o (a + 1) r (some msg)
          (rels ++ [(false, rateLimitedFlagExc msg)])
          (if a < M - 1 then slps ++ [D * (a + 1)] else slps)).attemptsUsed - a =
          ((runFrom M D o (a + 1) r (some msg)
          (rels ++ [(false, rateLimitedFlagExc msg)])
          (if a < M - 1 then slps ++ [D * (a + 1)] else slps)).attemptsUsed - (a + 1)) + 1 := by
        omega
      rw [hcount, List.range'_succ]
      simp [List.filterMap_cons, releaseOfOutcome, ho]

/-- C4 counterexample: a result-path failure whose text contains "429" but
not "rate" is released with rate_limited = false, although the claimed
two-part test classifies it as rate limited. -/
theorem c4_counterexample :
    (generateWithRetry (fun _ => AttemptOutcome.genErr "HTTP 429")).releases.head? =
      some (false, false) ∧
    specRateLimitedFlag "HTTP 429" = true := by
  decide

/-- C4 (amended): every attempt that reaches the generation call performs
exactly one release, in attempt order, and the rate-limited flag of that
release depends on the path: the result path tests only the case-insensitive
substring "rate" of the failure text, while the exception path tests only
the literal substring "429"; the two tests are not combined on either
path. -/
theorem c4_release_rate_flags (o : Nat → AttemptOutcome) :
    (generateWithRetry o).releases =
      (List.range (generateWithRetry o).attemptsUsed).filterMap
        (fun n => releaseOfOutcome (o n)) ∧
    (∀ msg, releaseOfOutcome (AttemptOutcome.genErr msg) =
      some (false, strContains (lowerStr msg) "rate")) ∧
    (∀ msg, releaseOfOutcome (AttemptOutcome.genRaise msg) =
      some (false, strContains msg "429")) := by
  refine ⟨?_, fun msg => rfl, fun msg => rfl⟩
  obtain ⟨_, hrel⟩ := runFrom_releases 3 5 o 3 0 none [] []
  unfold generateWithRetry retryRun
  rw [hrel]
  simp [List.range_eq_range']

/-- C5 counterexample: with an acquire timeout on the first attempt and
transient errors afterwards the loop sleeps only once (10 s, after the
second attempt), while three transient errors sleep twice (5 s then 10 s):
the timed-out attempt is not followed by the claimed 5 s backoff. -/
theorem c5_counterexample :
    (generateWithRetry
      (fun n => if n = 0 then AttemptOutcome.acquireTimeout
        else AttemptOutcome.genErr "boom")).sleeps = [10] ∧
    (generateWithRetry (fun _ => AttemptOutcome.genErr "boom")).sleeps = [5, 10] := by
  decide

/-- C5 (amended): an acquire timeout consumes the attempt, records the error
"No available API accounts" and proceeds directly to the next attempt with
no backoff sleep (the release and sleep lists are passed on unchanged); a
run in which every acquire times out therefore fails after 3 attempts with
that error, no release and no sleep at all. -/
theorem c5_timeout_consumes_without_sleep (o : Nat → AttemptOutcome) (a r : Nat)
    (le : Option String) (rels : List (Bool × Bool)) (slps : List Nat)
    (h : o a = AttemptOutcome.acquireTimeout) :
    runFrom 3 5 o a (r + 1) le rels slps =
      runFrom 3 5 o (a + 1) r (some noAccountMsg) rels slps ∧
    ((∀ n, o n = AttemptOutcome.acquireTimeout) →
      generateWithRetry o =
        { success := false, error := some noAccountMsg, attemptsUsed := 3,
          releases := [], sleeps := [] }) := by
  constructor
  · simp [runFrom, h]
  · intro hall
    have step : ∀ (a1 r1 : Nat) (le1 : Option String),
        runFrom 3 5 o a1 (r1 + 1) le1 [] [] =
          runFrom 3 5 o (a1 + 1) r1 (some noAccountMsg) [] [] := by
      intro a1 r1 le1
      simp [runFrom, hall a1]
    show runFrom 3 5 o 0 (2 + 1) none [] [] = _
    rw [step 0 2 none]
    show runFrom 3 5 o 1 (1 + 1) (some noAccountMsg) [] [] = _
    rw [step 1 1 (some noAccountMsg)]
    show runFrom 3 5 o 2 (0 + 1) (some noAccountMsg) [] [] = _
    rw [step 2 0 (some noAccountMsg)]
    show finishFail (some noAccountMsg) 3 [] [] = _
    decide

/-- C5 amended witness: the all-timeout oracle at attempt 0 with a fresh
trace. -/
theorem c5_timeout_consumes_without_sleep_witness :
    (runFrom 3 5 (fun _ => AttemptOutcome.acquireTimeout) 0 (1 + 1) none [] [] =
      runFrom 3 5 (fun _ => AttemptOutcome.acquireTimeout) (0 + 1) 1 (some noAccountMsg) [] []) ∧
    ((∀ n, (fun _ : Nat => AttemptOutcome.acquireTimeout) n = AttemptOutcome.acquireTimeout) →
      generateWithRetry (fun _ => AttemptOutcome.acquireTimeout) =
        { success := false, error := some noAccountMsg, attemptsUsed := 3,
          releases := [], sleeps := [] }) :=
  c5_timeout_consumes_without_sleep (fun _ => AttemptOutcome.acquireTimeout) 0 1 none [] [] rfl

/-- An empty error text never passes the non-retryable test, so the
python-truthiness fallback keeps the terminal message itself. -/
theorem pyOr_of_terminal (msg : String) (h : isTerminalError msg = true) :
    pyOrUnknown (some msg) = msg := by
  by_cases he : msg = ""
  · subst he
    exact absurd h (by decide)
  · simp [pyOrUnknown, he]

/-- A non-retryable generation error stops the loop at once: the attempt
releases the credential, no sleep happens, and the loop returns the failure
with that error. -/
theorem runFrom_terminal (o : Nat → AttemptOutcome) (a r : Nat) (le : Option String)
    (rels : List (Bool × Bool)) (slps : List Nat) (msg : String)
    (h1 : o a = AttemptOutcome.genErr msg) (h2 : isTerminalError msg = true) :
    runFrom 3 5 o a (r + 1) le rels slps =
      { success := false, error := some msg, attemptsUsed := a + 1,
        releases := rels ++ [(false, rateLimitedFlagResult (some msg))], sleeps := slps } := by
  simp [runFrom, h1, h2, finishFail, pyOr_of_terminal msg h2]

/-- C6: an attempt whose generation error text contains "safety", "blocked"
or "invalid" (case-insensitively) ends the job at that attempt with the
error kept and no further sleeps; when it is the first attempt the whole
job uses exactly 1 attempt. -/
theorem c6_policy_rejection (o : Nat → AttemptOutcome) (msg : String)
    (a r : Nat) (le : Option String) (rels : List (Bool × Bool)) (slps : List Nat)
    (h1 : o a = AttemptOutcome.genErr msg) (h2 : isTerminalError msg = true) :
    runFrom 3 5 o a (r + 1) le rels slps =
      { success := false, error := some msg, attemptsUsed := a + 1,
        releases := rels ++ [(false, rateLimitedFlagResult (some msg))], sleeps := slps } ∧
    (o 0 = AttemptOutcome.genErr msg →
      generateWithRetry o =
        { success := false, error := some msg, attemptsUsed := 1,
          releases := [(false, rateLimitedFlagResult (some msg))], sleeps := [] }) := by
  constructor
  · exact runFrom_terminal o a r le rels slps msg h1 h2
  · intro h0
    have := runFrom_terminal o 0 2 none [] [] msg h0 h2
    simpa using this

/-- C6 witness: a job whose first generation call fails with an error
containing "blocked". -/
theorem c6_policy_rejection_witness :
    (runFrom 3 5 (fun _ => AttemptOutcome.genErr "request blocked") 0 (2 + 1) none [] [] =
      { success := false, error := some "request blocked", attemptsUsed := 0 + 1,
        releases := [] ++ [(false, rateLimitedFlagResult (some "request blocked"))],
        sleeps := [] }) ∧
    ((fun _ : Nat => AttemptOutcome.genErr "request blocked") 0 =
        AttemptOutcome.genErr "request blocked" →
      generateWithRetry (fun _ => AttemptOutcome.genErr "request blocked") =
        { success := false, error := some "request blocked", attemptsUsed := 1,
          releases := [(false, rateLimitedFlagResult (some "request blocked"))],
          sleeps := [] }) :=
  c6_policy_rejection (fun _ => AttemptOutcome.genErr "request blocked") "request blocked"
    0 2 none [] [] rfl (by decide)

/-- A retryable generation error releases the credential, keeps the error,
and sleeps 5 * (attempt + 1) seconds when attempts remain. -/
theorem runFrom_retryable_step (o : Nat → AttemptOutcome) (a r : Nat) (le : Option String)
    (rels : List (Bool × Bool)) (slps : List Nat) (msg : String)
    (h1 : o a = AttemptOutcome.genErr msg) (h2 : isTerminalError msg = false) :
    runFrom 3 5 o a (r + 1) le rels slps =
      runFrom 3 5 o (a + 1) r (some msg)
        (rels ++ [(false, rateLimitedFlagResult (some msg))])
        (if a < 2 then slps ++ [5 * (a + 1)] else slps) := by
  simp [runFrom, h1, h2]

/-- C7: a job whose three generation calls all fail with retryable errors
ends after exactly 3 attempts with the last error, backoff sleeps of 5 s and
10 s, and one release per attempt. -/
theorem c7_transient_exhausts (o : Nat → AttemptOutcome) (m0 m1 m2 : String)
    (h0 : o 0 = AttemptOutcome.genErr m0) (h1 : o 1 = AttemptOutcome.genErr m1)
    (h2 : o 2 = AttemptOutcome.genErr m2)
    (t0 : isTerminalError m0 = false) (t1 : isTerminalError m1 = false)
    (t2 : isTerminalError m2 = false) (hne : m2 ≠ "") :
    generateWithRetry o =
      { success := false, error := some m2, attemptsUsed := 3,
        releases := [(false, rateLimitedFlagResult (some m0)),
          (false, rateLimitedFlagResult (some m1)),
          (false, rateLimitedFlagResult (some m2))],
        sleeps := [5, 10] } := by
  have hpy : pyOrUnknown (some m2) = m2 := by simp [pyOrUnknown, hne]
  show runFrom 3 5 o 0 (2 + 1) none [] [] = _
  rw [runFrom_retryable_step o 0 2 none [] [] m0 h0 t0]
  have e1 : runFrom 3 5 o (0 + 1) 2 (some m0)
      ([] ++ [(false, rateLimitedFlagResult (some m0))])
      (if 0 < 2 then [] ++ [5 * (0 + 1)] else []) =
      runFrom 3 5 o 1 (1 + 1) (some m0) [(false, rateLimitedFlagResult (some m0))] [5] := by
    norm_num
  rw [e1, runFrom_retryable_step o 1 1 (some m0) [(false, rateLimitedFlagResult (some m0))]
    [5] m1 h1 t1]
  have e2 : runFrom 3 5 o (1 + 1) 1 (some m1)
      ([(false, rateLimitedFlagResult (some m0))] ++ [(false, rateLimitedFlagResult (some m1))])
      (if 1 < 2 then [5] ++ [5 * (1 + 1)] else [5]) =
      runFrom 3 5 o 2 (0 + 1) (some m1)
        [(false, rateLimitedFlagResult (some m0)), (false, rateLimitedFlagResult (some m1))]
        [5, 10] := by
    norm_num
  rw [e2, runFrom_retryable_step o 2 0 (some m1)
    [(false, rateLimitedFlagResult (some m0)), (false, rateLimitedFlagResult (some m1))]
    [5, 10] m2 h2 t2]
  show finishFail (some m2) 3 _ _ = _
  simp [finishFail, hpy]

/-- C7 witness: three attempts all failing with the transient error
"boom". -/
theorem c7_transient_exhausts_witness :
    generateWithRetry (fun _ => AttemptOutcome.genErr "boom") =
      { success := false, error := some "boom", attemptsUsed := 3,
        releases := [(false, rateLimitedFlagResult (some "boom")),
          (false, rateLimitedFlagResult (some "boom")),
          (false, rateLimitedFlagResult (some "boom"))],
        sleeps := [5, 10] } :=
  c7_transient_exhausts (fun _ => AttemptOutcome.genErr "boom") "boom" "boom" "boom"
    rfl rfl rfl (by decide) (by decide) (by decide) (by decide)

/-- Closing the current archive onto the finished list keeps every archive
after the first nonempty, provided an empty current archive can only occur
while nothing is finished yet. -/
theorem append_single_tail_ne {α : Type} (zips : List (List α)) (cur : List α)
    (hz : ∀ z ∈ zips.drop 1, z ≠ []) (hcz : cur = [] → zips = []) :
    ∀ z ∈ (zips ++ [cur]).drop 1, z ≠ [] := by
  intro z hmem
  cases zips with
  | nil =>
    rw [List.nil_append] at hmem
    simp at hmem
  | cons z0 zs =>
    have hre : ((z0 :: zs) ++ [cur]).drop 1 = zs ++ [cur] := rfl
    rw [hre] at hmem
    rcases List.mem_append.mp hmem with h1 | h1
    · exact hz z h1
    · have hzc : z = cur := by simpa using h1
      subst hzc
      intro hcur
      exact absurd (hcz hcur) (by simp)

/-- Loop invariant of split_if_needed: every archive of the final output
other than the first is nonempty. -/
theorem splitLoop_tail_ne_nil :
    ∀ (l : List Payload) (zips : List (List Payload)) (cur : List Payload) (curSize : Nat),
      (∀ z ∈ zips.drop 1, z ≠ []) → (cur = [] → zips = []) →
      ∀ z ∈ (splitLoop l zips cur curSize).drop 1, z ≠ [] := by
  intro l
  induction l with
  | nil =>
    intro zips cur curSize hz hcz
    simp only [splitLoop]
    exact append_single_tail_ne zips cur hz hcz
  | cons r rest ih =>
    intro zips cur curSize hz hcz
    simp only [splitLoop]
    by_cases h0 : dataSize r = 0
    · rw [if_pos h0]
      exact ih zips cur curSize hz hcz
    · rw [if_neg h0]
      by_cases h1 : curSize + dataSize r > packThreshold
      · rw [if_pos h1]
        apply ih
        · exact append_single_tail_ne zips cur hz hcz
        · intro hh
          exact absurd hh (by simp)
      · rw [if_neg h1]
        apply ih
        · exact hz
        · intro hh
          exact absurd hh (by simp)

/-- Loop invariant of split_if_needed: an item larger than the threshold is
always alone in its archive, because adding any further sized item would
first close that archive. -/
theorem splitLoop_solo :
    ∀ (l : List Payload) (zips : List (List Payload)) (cur : List Payload) (curSize : Nat),
      curSize = totalSize cur →
      (∀ x ∈ cur, dataSize x ≠ 0) →
      (∀ z ∈ zips, ∀ x ∈ z, dataSize x > packThreshold → z = [x]) →
      (∀ x ∈ cur, dataSize x > packThreshold → cur = [x]) →
      ∀ z ∈ splitLoop l zips cur curSize, ∀ x ∈ z, dataSize x > packThreshold → z = [x] := by
  intro l
  induction l with
  | nil =>
    intro zips cur curSize hsize hpos hzips hcur z hmem
    simp only [splitLoop] at hmem
    rcases List.mem_append.mp hmem with h1 | h1
    · exact hzips z h1
    · have hzc : z = cur := by simpa using h1
      subst hzc
      exact hcur
  | cons r rest ih =>
    intro zips cur curSize hsize hpos hzips hcur
    simp only [splitLoop]
    by_cases h0 : dataSize r = 0
    · rw [if_pos h0]
      exact ih zips cur curSize hsize hpos hzips hcur
    · rw [if_neg h0]
      by_cases h1 : curSize + dataSize r > packThreshold
      · rw [if_pos h1]
        apply ih
        · simp [totalSize]
        · intro x hx
          have hxr : x = r := by simpa using hx
          subst hxr
          exact h0
        · intro z hz
          rcases List.mem_append.mp hz with h2 | h2
          · exact hzips z h2
          · have hzc : z = cur := by simpa using h2
            subst hzc
            exact hcur
        · intro x hx hbig
          have hxr : x = r := by simpa using hx
          subst hxr
          rfl
      · rw [if_neg h1]
        apply ih
        · rw [hsize]
          simp [totalSize]
        · intro x hx
          rcases List.mem_append.mp hx with h2 | h2
          · exact hpos x h2
          · have hxr : x = r := by simpa using h2
            subst hxr
            exact h0
        · exact hzips
        · intro x hx hbig
          exfalso
          rcases List.mem_append.mp hx with h2 | h2
          · have hle : dataSize x ≤ totalSize cur := by
              have hm : dataSize x ∈ cur.map dataSize := List.mem_map_of_mem dataSize h2
              exact List.single_le_sum (fun y _ => Nat.zero_le y) _ hm
            rw [← hsize] at hle
            omega
          · have hxr : x = r := by simpa using h2
            subst hxr
            omega

/-- C3 (amended): walking the payloads in order, the packager closes the
current archive and starts a new one before an item exactly when
currentSize + itemSize exceeds the 45 MB threshold, with no condition on the
current archive being nonempty; consequently every emitted archive except
possibly the first contains at least one payload entry, and an item whose
own size exceeds the threshold is still placed alone, unsplit, in its own
archive. -/
theorem c3_split_packing (results : List Payload) :
    (∀ z ∈ (splitIfNeeded results).drop 1, z ≠ []) ∧
    (∀ z ∈ splitIfNeeded results, ∀ x ∈ z, dataSize x > packThreshold → z = [x]) ∧
    (∀ (r : Payload) (rest : List Payload) (zips : List (List Payload)) (cur : List Payload)
      (curSize : Nat), dataSize r ≠ 0 →
      (curSize + dataSize r > packThreshold →
        splitLoop (r :: rest) zips cur curSize =
          splitLoop rest (zips ++ [cur]) [r] (dataSize r)) ∧
      (curSize + dataSize r ≤ packThreshold →
        splitLoop (r :: rest) zips cur curSize =
          splitLoop rest zips (cur ++ [r]) (curSize + dataSize r))) := by
  refine ⟨?_, ?_, ?_⟩
  · unfold splitIfNeeded
    split_ifs with ht
    · intro z hmem
      simp at hmem
    · exact splitLoop_tail_ne_nil results [] [] 0 (by simp) (fun _ => rfl)
  · unfold splitIfNeeded
    split_ifs with ht
    · intro z hmem x hx hbig
      exfalso
      have hz : z = results.filter (fun r => !(dataSize r == 0)) := by simpa using hmem
      subst hz
      have hxr : x ∈ results := List.mem_of_mem_filter hx
      have hle : dataSize x ≤ totalSize results := by
        have hm : dataSize x ∈ results.map dataSize := List.mem_map_of_mem dataSize hxr
        exact List.single_le_sum (fun y _ => Nat.zero_le y) _ hm
      unfold totalSize at hle ht
      omega
    · exact splitLoop_solo results [] [] 0 rfl (by simp) (by simp) (by simp)
  · intro r rest zips cur curSize h0
    constructor
    · intro h1
      simp only [splitLoop]
      rw [if_neg h0, if_pos h1]
    · intro h1
      simp only [splitLoop]
      rw [if_neg h0, if_neg (by omega)]

/-- Single oversized payload used to exhibit the missing nonemptiness guard:
60 MiB of zero bytes. -/
def bigItem : Payload := ⟨0, some (List.replicate 62914560 0)⟩

/-- Size of the oversized payload. -/
theorem bigItem_size : dataSize bigItem = 62914560 := by
  unfold dataSize bigItem
  rw [Option.getD_some]
  exact List.length_replicate 62914560 0

/-- C3 counterexample: a single 60 MiB payload makes the splitter close the
still-empty first archive, so the output is an empty archive followed by the
oversized item alone; the claimed nonemptiness condition on closing does not
hold and an emitted archive carries no payload entry. -/
theorem c3_counterexample : splitIfNeeded [bigItem] = [[], [bigItem]] := by
  unfold splitIfNeeded
  have htot : totalSize [bigItem] = 62914560 := by
    unfold totalSize
    rw [List.map_cons, List.map_nil, List.sum_cons, List.sum_nil, bigItem_size]
    norm_num
  rw [htot]
  rw [if_neg (by norm_num [packThreshold])]
  show splitLoop [bigItem] [] [] 0 = [[], [bigItem]]
  unfold splitLoop
  rw [if_neg (by rw [bigItem_size]; norm_num),
    if_pos (by rw [bigItem_size]; norm_num [packThreshold])]
  unfold splitLoop
  rfl

end Mynted
